import Mathlib

/-!
# Verification of the parser-combinator engine in `Src/parsing/combinators.py`

This file gives a shallow embedding of the parsing engine of the repository
(`src/Src/parsing/combinators.py`, with the historical variant of the regex
primitive from `src/Activities/parsing/combinators.py`) and proves the
specified properties about it.

Modelling conventions:
* The Python input string (a sequence of code points) is modelled as
  `List Char`; offsets (`point`, `start`, failure positions) are `Nat`.
* Python's `re.match` is an external library call; the regex primitives are
  parameterised by a match oracle `List Char → Option (List (List Char))`
  returning the list of groups on a match (index 0 is the full match).
  The concrete pattern used by `natural_number` is modelled explicitly
  (`reMatchNat`), following the semantics of `(?:[1-9][0-9]*|0)`.
* Failure message strings in the source interpolate diagnostic parser labels
  (`get_label`) and counts.  Labels are pure diagnostics (never used for
  matching) and no verified property depends on message text, so messages
  are kept as fixed strings without the interpolated parts.
* The `data` payload of a `Failure` is a Python dict; it is modelled as an
  association list `List (String × DiagValue)` where `DiagValue` covers the
  value shapes the engine stores.  `dictUnion` models Python's `d1 | d2`
  (keys of `d1` in order with `d2`'s values taking precedence, then the new
  keys of `d2`).
* Unbounded `while` loops (`interleave`) are given an explicit fuel
  parameter; theorems about them require enough fuel for the run at hand.
-/

/-- Value shapes stored in the `data` field of a `Failure`
    (e.g. `expected`, `pattern`, `group`, `failure-positions`). -/
inductive DiagValue where
  | str : List Char → DiagValue
  | strs : List (List Char) → DiagValue
  | nat : Nat → DiagValue
  | positions : List Nat → DiagValue
deriving DecidableEq, Repr

/-- A Python dict used as a `Failure` `data` payload, as an association list. -/
abbrev Dict : Type := List (String × DiagValue)

/-- Lookup of a key in a `Dict` (first occurrence wins, as in a Python dict
    which has no duplicate keys). -/
def dlookup (k : String) : Dict → Option DiagValue
  | [] => none
  | (k', v) :: rest => if k' = k then some v else dlookup k rest

/-- Python's `d1 | d2`: keys of `d1` in order with values overridden by `d2`
    where present, followed by the keys of `d2` not in `d1`. -/
def dictUnion (a b : Dict) : Dict :=
  (a.map fun kv => match dlookup kv.1 b with
    | some v => (kv.1, v)
    | none => kv)
  ++ b.filter fun kv => (dlookup kv.1 a).isNone

/-- `merge_data` from the source: merges two optional data dicts,
    treating `None` as empty. -/
def merge_data (data1 data2 : Option Dict) : Option Dict :=
  match data1, data2 with
  | none, d2 => d2
  | d1, none => d1
  | some a, some b => some (dictUnion a b)

/-- `ParseState`: the immutable cursor.  The fields hold the invariant
    established by the constructor `mkParseState` below. -/
structure ParseState where
  source : List Char
  point : Nat
  start : Nat
deriving DecidableEq, Repr

/-- `ParseState.__init__` from the source: a non-negative `point` is clamped
    to `len(source)`; a negative `point` counts from the end of the source,
    clamped below at 0; a negative `start` defaults to the computed point. -/
def mkParseState (source : List Char) (point : Int) (start : Int) : ParseState :=
  let n : Int := source.length
  let pt : Nat := if 0 ≤ point then (min point n).toNat else (max (n + point) 0).toNat
  { source := source
    point := pt
    start := if 0 ≤ start then start.toNat else pt }

/-- `ParseState.view`: the unconsumed slice `source[point:end]`, optionally
    bounded in length (`maxlen < 0` means unbounded, as in the source). -/
def ParseState.view (s : ParseState) (maxlen : Int := -1) : List Char :=
  let n := s.source.length
  let e := if maxlen < 0 then n else min (s.point + maxlen.toNat) n
  (s.source.drop s.point).take (e - s.point)

/-- `ParseState.require`: like `view`, but returns a failure indicator when
    fewer than `size` characters remain (the source returns an explanatory
    message in the first slot in that case). -/
def ParseState.require (s : ParseState) (size : Nat) : List Char × Bool :=
  let n := s.source.length
  if s.point + size > n then
    (String.toList "Required characters not available.", false)
  else (s.view (size : Int), true)

/-- `ParseState.advance`: advances the point, going through the constructor
    (which clamps at `len(source)`); `advance(0)` returns the state itself. -/
def ParseState.advance (s : ParseState) (by_ : Nat) : ParseState :=
  if by_ = 0 then s
  else mkParseState s.source ((s.point : Int) + (by_ : Int)) (s.start : Int)

/-- `ParseState.available`: number of tokens remaining in the source. -/
def ParseState.available (s : ParseState) : Nat :=
  let n := s.source.length
  if s.point < n then n - s.point else 0

/-- The result algebra: `Success{result, state}` / `Failure{message, pos, data}`. -/
inductive ParseResult (A : Type) where
  | Success : A → ParseState → ParseResult A
  | Failure : String → Nat → Option Dict → ParseResult A
deriving DecidableEq

/-- A parser is a function from cursor to result (labels, which are pure
    diagnostics attached as function attributes in the source, are omitted). -/
def Parser (A : Type) : Type := ParseState → ParseResult A

/-- `failed` type guard from the source. -/
def failed {A : Type} : ParseResult A → Bool
  | .Failure _ _ _ => true
  | .Success _ _ => false

/-- `succeeded` type guard from the source. -/
def succeeded {A : Type} : ParseResult A → Bool
  | .Success _ _ => true
  | .Failure _ _ _ => false

/-- `pure`: always succeeds with `x` without advancing the point
    (named `pureP` after the inner function in the source). -/
def pureP {A : Type} (x : A) : Parser A :=
  fun state => .Success x state

/-- `fmap`: transforms the result of a parser by a function. -/
def fmap {A B : Type} (p : Parser A) (f : A → B) : Parser B :=
  fun state =>
    match p state with
    | .Success resA stateA => .Success (f resA) stateA
    | .Failure m pos d => .Failure m pos d

/-- `pipe`: monadic sequencing; runs `p`, then the parser `f` chooses from
    `p`'s result, returning `p`'s failure verbatim when `p` fails. -/
def pipe {A B : Type} (p : Parser A) (f : A → Parser B) : Parser B :=
  fun state =>
    match p state with
    | .Success resA stateA => f resA stateA
    | .Failure m pos d => .Failure m pos d

/-- `seq`: runs two parsers in sequence collecting the results in a pair,
    defined through `pipe` exactly as in the source. -/
def seq {A B : Type} (p : Parser A) (q : Parser B) : Parser (A × B) :=
  pipe p fun x => pipe q fun y => pureP (x, y)

/-- The key under which alternation records branch failure positions. -/
def fpKey : String := "failure-positions"

/-- `alt`: runs `p`, or `q` from the original cursor when `p` fails; when
    both fail, synthesizes a failure at the farthest position with the
    branches' data merged and both positions recorded under `fpKey`. -/
def alt {A : Type} (p q : Parser A) : Parser A :=
  fun state =>
    match p state with
    | .Success r s => .Success r s
    | .Failure m1 a d1 =>
        match q state with
        | .Success r s => .Success r s
        | .Failure m2 b d2 =>
            .Failure ("alt failed: " ++ m1 ++ " and " ++ m2) (max a b)
              (merge_data (merge_data d1 d2)
                (some [(fpKey, DiagValue.positions [a, b])]))

/-- The loop of `alts`, carrying `farthest`, the best branch's `data` and
    message, and the accumulated list of failure positions. -/
def altsLoop {A : Type} (state : ParseState) :
    List (Parser A) → Nat → Option Dict → List Nat → String → ParseResult A
  | [], farthest, data, positions, mesg =>
      .Failure ("All alternatives failed: " ++ mesg) farthest
        (merge_data data (some [(fpKey, DiagValue.positions positions)]))
  | p :: ps, farthest, data, positions, mesg =>
      match p state with
      | .Success r s => .Success r s
      | .Failure m pos d =>
          if pos > farthest then
            altsLoop state ps pos d (positions ++ [pos]) m
          else
            altsLoop state ps farthest data (positions ++ [pos]) mesg

/-- `alts`: tries the given parsers in order from the same cursor until one
    succeeds; fails at the farthest failure position when all fail. -/
def alts {A : Type} (ps : List (Parser A)) : Parser A :=
  fun state => altsLoop state ps state.point none [] ""

/-- `optional`: `alt(p, pure(default))` exactly as in the source
    (named `optionalP` because `optional` is taken in the ambient library). -/
def optionalP {A : Type} (p : Parser A) (default : A) : Parser A :=
  alt p (pureP default)

/-- `MANY_REPS`: the effectively-infinite default repetition bound. -/
def MANY_REPS : Nat := 1 <<< 32

/-- The loop of `repeated`, by recursion on `remaining = maximum - reps`
    (the source iterates `while reps < maximum`); `reps` is the number of
    repetitions already performed and `startPoint` the point of the
    original state (used as the failure position). -/
def repeatedFrom {A : Type} (p : Parser A) (minimum startPoint : Nat) :
    Nat → Nat → ParseState → ParseResult (List A)
  | 0, _, st => .Success [] st
  | remaining + 1, reps, st =>
      match p st with
      | .Success res st' =>
          match repeatedFrom p minimum startPoint remaining (reps + 1) st' with
          | .Success rs st'' => .Success (res :: rs) st''
          | .Failure m pos d => .Failure m pos d
      | .Failure _ _ _ =>
          if reps < minimum then
            .Failure "repeated parsed fewer than minimum items" startPoint none
          else .Success [] st

/-- `repeated(p, minimum, maximum)`: runs `p` an inclusive range of times.
    The source's construction-time `ValueError` guard (`minimum > maximum`
    or negative bounds) is modelled by the `minimum ≤ maximum` hypothesis of
    the theorems (the counts are `Nat`). -/
def repeated {A : Type} (p : Parser A) (minimum maximum : Nat) : Parser (List A) :=
  fun st => repeatedFrom p minimum st.point maximum 0 st

/-- The code after the `while` loop of `interleave`: applies `end` (when
    present) at `item_state or state1` and wraps up the result list. -/
def interleaveFinish {A C : Type} (endp : Option (Parser C)) (results : List A)
    (state1 : ParseState) (item_state : Option ParseState) : ParseResult (List A) :=
  let final := item_state.getD state1
  match endp with
  | some e =>
      match e final with
      | .Success _ next => .Success results next
      | .Failure m pos d => .Failure m pos d
  | none => .Success results final

/-- The `while` loop of `interleave`, with explicit fuel (the source loop is
    unbounded); `state1` is the current state, `results` the items parsed so
    far and `item_state` the state just after the last successful item
    (`None` when no item has succeeded yet). -/
def interleaveLoop {A B C : Type} (item : Parser A) (sep : Parser B)
    (endp : Option (Parser C)) (allow_empty : Bool) :
    Nat → ParseState → List A → Option ParseState → ParseResult (List A)
  | 0, _, _, _ => .Failure "interleave: out of fuel" 0 none
  | fuel + 1, state1, results, item_state =>
      match item state1 with
      | .Success res next =>
          match sep next with
          | .Success _ next2 =>
              interleaveLoop item sep endp allow_empty fuel next2
                (results ++ [res]) (some next)
          | .Failure _ _ _ =>
              interleaveFinish endp (results ++ [res]) next (some next)
      | .Failure m pos d =>
          if item_state.isNone && !allow_empty then
            .Failure ("Expected items in interleave: " ++ m) pos d
          else interleaveFinish endp results state1 item_state

/-- `interleave(item, sep, end, start, allow_empty)`: parses an optional
    `start` delimiter, then alternating item/separator pairs (a trailing
    separator is not required), then an optional `end` delimiter. -/
def interleave {A B C D : Type} (item : Parser A) (sep : Parser B)
    (endp : Option (Parser C)) (startp : Option (Parser D))
    (allow_empty : Bool) (fuel : Nat) : Parser (List A) :=
  fun state =>
    match startp with
    | some st =>
        match st state with
        | .Success _ next => interleaveLoop item sep endp allow_empty fuel next [] none
        | .Failure m pos d => .Failure m pos d
    | none => interleaveLoop item sep endp allow_empty fuel state [] none

/-- `char(c)`: matches a specific character (the source compares the
    one-character view with `c`). -/
def char (c : Char) : Parser Char :=
  fun state =>
    match state.require 1 with
    | (token, true) =>
        if token = [c] then .Success c (state.advance 1)
        else .Failure "Expected character" state.point (some [("expected", DiagValue.str [c])])
    | (_, false) =>
        .Failure "Expected character" state.point (some [("expected", DiagValue.str [c])])

/-- `string(s)`: matches a specific string; `transform` is applied to the
    input before the comparison (`id` gives the plain case). -/
def string (s : List Char) (transform : List Char → List Char) : Parser (List Char) :=
  fun state =>
    match state.require s.length with
    | (tokens, true) =>
        if s = transform tokens then .Success tokens (state.advance s.length)
        else .Failure "Expected string" state.point none
    | (_, false) => .Failure "Expected string" state.point none

/-- `regex(...)` inner parser `regexP` from `src/Src/parsing/combinators.py`:
    on a match it returns the requested capture group as the value but
    advances by the length of the full match (group 0).  `re.match` is
    modelled by the oracle `rmatch` (`pattern` is carried only for the
    failure `data`; `flags` is the default `NOFLAG` and is omitted). -/
def regexP (rmatch : List Char → Option (List (List Char))) (pattern : List Char)
    (group : Nat) : Parser (List Char) :=
  fun state =>
    match rmatch state.view with
    | some m => .Success (m.getD group []) (state.advance (m.getD 0 []).length)
    | none =>
        .Failure "Expected match of regex" state.point
          (some [("pattern", DiagValue.str pattern), ("group", DiagValue.nat group)])

/-- `regexP` from the historical variant `src/Activities/parsing/combinators.py`:
    on a match it advances by the length of the *requested group*, not the
    full match. -/
def regexP_activities (rmatch : List Char → Option (List (List Char)))
    (pattern : List Char) (group : Nat) : Parser (List Char) :=
  fun state =>
    match rmatch state.view with
    | some m =>
        let matched := m.getD group []
        .Success matched (state.advance matched.length)
    | none =>
        .Failure "Expected match of regex" state.point
          (some [("pattern", DiagValue.str pattern), ("group", DiagValue.nat group)])

/-- Semantics of `re.match(r'(?:[1-9][0-9]*|0)', s)`: a maximal run of
    digits starting with a non-zero digit, or the single digit `0`;
    returns the full match (the pattern has no capture groups). -/
def reMatchNat (s : List Char) : Option (List Char) :=
  match s with
  | [] => none
  | c :: rest =>
      if '1' ≤ c ∧ c ≤ '9' then some (c :: rest.takeWhile fun d => '0' ≤ d ∧ d ≤ '9')
      else if c = '0' then some ['0']
      else none

/-- Python `int` applied to the (all-digit) strings produced by the
    `natural_number` regex. -/
def pyInt (s : List Char) : Nat :=
  s.foldl (fun acc c => 10 * acc + (c.toNat - '0'.toNat)) 0

/-- `natural_number = fmap(regex(r'(?:[1-9][0-9]*|0)'), int)` from the source
    (default `group=0`; the pattern has no capture groups, so the oracle
    returns the full match as the only group). -/
def natural_number : Parser Nat :=
  fmap (regexP (fun s => (reMatchNat s).map fun m => [m])
          (String.toList "(?:[1-9][0-9]*|0)") 0) pyInt

/-- Semantics of `re.match(r'a(b)', s)`: matches when the view starts with
    `ab`, with group 1 capturing the `b`.  Used as a concrete oracle for the
    regex-primitive claims. -/
def reMatchAB (s : List Char) : Option (List (List Char)) :=
  if s.take 2 = ['a', 'b'] then some [['a', 'b'], ['b']] else none

/-- `parse(tokens, p, start)`: the entry point; builds the initial cursor
    through the constructor (the omitted `start` field of `ParseState`
    defaults to `-1`, i.e. to the computed point). -/
def parse {A : Type} (tokens : List Char) (p : Parser A) (start : Int) : ParseResult A :=
  p (mkParseState tokens start (-1))

/-- A do-block specification, as driven by the `do` evaluator: each step
    yields a parser and receives its parsed value; the specification ends
    by returning either a plain value or a parser to be run. -/
inductive DoSpec (V A : Type) where
  | step : Parser V → (V → DoSpec V A) → DoSpec V A
  | retValue : A → DoSpec V A
  | retParser : Parser A → DoSpec V A

/-- The `lazily` driver of `do`: repeatedly runs the next declared
    sub-parser, resuming the specification with its value on success and
    aborting with the failure, unconsumed, on failure; a returned parser is
    run from the current state and a returned value is wrapped in `Success`
    at the current state. -/
def lazily {V A : Type} : DoSpec V A → Parser A
  | .step p k => fun state1 =>
      match p state1 with
      | .Success res next => lazily (k res) next
      | .Failure m pos d => .Failure m pos d
  | .retValue v => fun state1 => .Success v state1
  | .retParser p => fun state1 => p state1

/-- The nested `pipe`/`pure` chain corresponding to a do-block
    specification. -/
def doAsPipes {V A : Type} : DoSpec V A → Parser A
  | .step p k => pipe p fun v => doAsPipes (k v)
  | .retValue v => pureP v
  | .retParser p => p

/-! ## Theorems -/

/-- C4: `optional(p, d)` never returns a `Failure`: when `p` succeeds at `c`
    its `Success` is returned unchanged, and when `p` fails at `c` the result
    is `Success(d, c)` with the cursor exactly `c` (no input consumed). -/
theorem optionalP_total {A : Type} (p : Parser A) (d : A) (c : ParseState) :
    failed (optionalP p d c) = false
    ∧ (∀ r s, p c = .Success r s → optionalP p d c = .Success r s)
    ∧ (∀ m pos dd, p c = .Failure m pos dd → optionalP p d c = .Success d c) := by
  rcases h : p c with ⟨r, s⟩ | ⟨m, pos, dd⟩ <;>
    simp_all [optionalP, alt, pureP, failed]

/-- Witness for `optionalP_total` at `p = char 'x'`, `d = 'z'`, input `"ab"`. -/
theorem optionalP_total_witness :
    char 'x' ⟨['a', 'b'], 0, 0⟩
        = ParseResult.Failure "Expected character" 0 (some [("expected", DiagValue.str ['x'])])
    ∧ optionalP (char 'x') 'z' ⟨['a', 'b'], 0, 0⟩ = .Success 'z' ⟨['a', 'b'], 0, 0⟩ :=
  ⟨by decide,
   (optionalP_total (char 'x') 'z' ⟨['a', 'b'], 0, 0⟩).2.2
     "Expected character" 0 (some [("expected", DiagValue.str ['x'])]) (by decide)⟩

/-- C5: `seq(p, q)` runs `p` at `c`; if `p` fails the result is exactly `p`'s
    `Failure` (`q` is never consulted); if `p` succeeds with `x` at `c'`, `q`
    runs from `c'`; if `q` fails the result is exactly `q`'s `Failure`; if
    `q` succeeds with `y` at `c''` the result is `Success((x, y), c'')` — so
    a failing sequence never exposes any consumed input to the caller. -/
theorem seq_short_circuit {A B : Type} (p : Parser A) (q : Parser B) (c : ParseState) :
    (∀ m pos d, p c = .Failure m pos d → seq p q c = .Failure m pos d)
    ∧ (∀ x c' m pos d, p c = .Success x c' → q c' = .Failure m pos d →
        seq p q c = .Failure m pos d)
    ∧ (∀ x c' y c'', p c = .Success x c' → q c' = .Success y c'' →
        seq p q c = .Success (x, y) c'') := by
  refine ⟨?_, ?_, ?_⟩
  · intro m pos d h
    simp [seq, pipe, h]
  · intro x c' m pos d h1 h2
    simp [seq, pipe, h1, h2]
  · intro x c' y c'' h1 h2
    simp [seq, pipe, pureP, h1, h2]

/-- Witness for `seq_short_circuit`: `seq (char 'a') (char 'b')` on `"ab"`. -/
theorem seq_short_circuit_witness :
    seq (char 'a') (char 'b') ⟨['a', 'b'], 0, 0⟩
      = .Success ('a', 'b') ⟨['a', 'b'], 2, 0⟩ :=
  (seq_short_circuit (char 'a') (char 'b') ⟨['a', 'b'], 0, 0⟩).2.2
    'a' ⟨['a', 'b'], 1, 0⟩ 'b' ⟨['a', 'b'], 2, 0⟩ (by decide) (by decide)

/-- C8: the sequential (`do`) evaluator is semantically identical to the
    corresponding nested `pipe`/`pure` chain on every do-block specification
    and every cursor; in particular a failing step aborts the whole
    specification with exactly that `Failure`. -/
theorem do_equiv_pipes {V A : Type} (spec : DoSpec V A) (c : ParseState) :
    lazily spec c = doAsPipes spec c := by
  induction spec generalizing c with
  | step p k ih =>
      simp only [lazily, doAsPipes, pipe]
      cases hp : p c with
      | Success res next => exact ih res next
      | Failure m pos d => rfl
  | retValue v => rfl
  | retParser p => rfl

/-- C1 (code bug): the `Activities` variant of the regex primitive advances
    the cursor by the length of the requested capture group instead of the
    full match.  With the pattern `a(b)` and group 1 on input `"ab"`, it
    returns the group text `"b"` but advances the point only to 1, while the
    `Src` implementation (the invariant the specification states) advances
    to 2, the length of the full match `"ab"`. -/
theorem regexP_group_advance_bug :
    regexP_activities reMatchAB (String.toList "a(b)") 1 ⟨['a', 'b'], 0, 0⟩
      = .Success ['b'] ⟨['a', 'b'], 1, 0⟩
    ∧ regexP reMatchAB (String.toList "a(b)") 1 ⟨['a', 'b'], 0, 0⟩
      = .Success ['b'] ⟨['a', 'b'], 2, 0⟩
    ∧ (1 : Nat) ≠ 2 := by
  refine ⟨by decide, by decide, by decide⟩

/-- C7 counterexample: advancing past the end of the source does not yield
    `point' = point + n` — the constructor clamps at `len(source)`.  At the
    cursor `⟨"a", 0, 0⟩` (which satisfies `0 ≤ point ≤ len(source)`),
    `advance 2` yields point 1, not 0 + 2. -/
theorem advance_overrun_counterexample :
    (ParseState.advance ⟨['a'], 0, 0⟩ 2).point = 1 ∧ (1 : Nat) ≠ 0 + 2 := by
  refine ⟨by decide, by decide⟩

/-- C7 (amended): for a cursor with `point ≤ len(source)` and `n ≥ 0`,
    `advance n` keeps the source and start and sets
    `point' = min(point + n, len(source))`, hence never exceeds
    `len(source)` (the original cursor is unchanged: `advance` is a pure
    function on immutable values). -/
theorem advance_point_min (c : ParseState) (n : Nat) (h : c.point ≤ c.source.length) :
    (c.advance n).source = c.source
    ∧ (c.advance n).start = c.start
    ∧ (c.advance n).point = min (c.point + n) c.source.length
    ∧ (c.advance n).point ≤ c.source.length := by
  rcases c with ⟨src, pt, st⟩
  simp only [ParseState.advance, mkParseState]
  by_cases hn : n = 0
  · subst hn
    simp only [if_pos rfl]
    refine ⟨rfl, rfl, ?_, ?_⟩ <;> simp_all
  · rw [if_neg hn]
    have hpt : (0 : Int) ≤ (pt : Int) + (n : Int) := by positivity
    have hst : (0 : Int) ≤ (st : Int) := by positivity
    rw [if_pos hpt, if_pos hst]
    refine ⟨rfl, by simp, ?_, ?_⟩ <;> simp only [] <;> omega

/-- Witness for `advance_point_min` at `⟨"ab", 1, 0⟩`, `n = 5`. -/
theorem advance_point_min_witness :
    (ParseState.advance ⟨['a', 'b'], 1, 0⟩ 5).point = min (1 + 5) 2 :=
  (advance_point_min ⟨['a', 'b'], 1, 0⟩ 5 (by decide)).2.2.1

/-- C9: `parse(s, p, start)` applies `p` to the cursor built by the
    constructor, whose point always lies in `[0, len(s)]`: a start beyond
    `len(s)` is clamped to `len(s)` and a negative start is interpreted as
    `len(s) + start`, clamped below at 0; consequently `require(n)` returns
    a failure indicator (rather than indexing out of bounds) whenever fewer
    than `n` characters remain. -/
theorem parse_start_clamped {A : Type} (s : List Char) (p : Parser A) (start : Int) :
    parse s p start = p (mkParseState s start (-1))
    ∧ (mkParseState s start (-1)).point ≤ s.length
    ∧ ((s.length : Int) < start → (mkParseState s start (-1)).point = s.length)
    ∧ (start < 0 →
        ((mkParseState s start (-1)).point : Int) = max ((s.length : Int) + start) 0)
    ∧ (∀ (st : ParseState) (n : Nat),
        st.source.length - st.point < n → (st.require n).2 = false) := by
  refine ⟨rfl, ?_, ?_, ?_, ?_⟩
  · simp only [mkParseState]
    split <;> omega
  · intro hgt
    simp only [mkParseState]
    rw [if_pos (by omega)]
    omega
  · intro hneg
    simp only [mkParseState]
    rw [if_neg (by omega)]
    omega
  · intro st n hrem
    simp only [ParseState.require]
    rw [if_pos (by omega)]

/-- Witness for `parse_start_clamped`: on `"ab"`, start 5 clamps to 2,
    start -5 clamps to 0, and `require 4` at point 1 indicates failure. -/
theorem parse_start_clamped_witness :
    (mkParseState ['a', 'b'] 5 (-1)).point = 2
    ∧ ((mkParseState ['a', 'b'] (-5) (-1)).point : Int) = max ((2 : Int) + (-5)) 0
    ∧ ((⟨['a', 'b'], 1, 0⟩ : ParseState).require 4).2 = false :=
  ⟨(parse_start_clamped ['a', 'b'] (pureP (0 : Nat)) 5).2.2.1 (by decide),
   (parse_start_clamped ['a', 'b'] (pureP (0 : Nat)) (-5)).2.2.2.1 (by decide),
   (parse_start_clamped ['a', 'b'] (pureP (0 : Nat)) 0).2.2.2.2
     ⟨['a', 'b'], 1, 0⟩ 4 (by decide)⟩

/-! ### Dictionary lookup lemmas for the alternation diagnostics -/

theorem dlookup_append (k : String) (x y : Dict) :
    dlookup k (x ++ y)
      = match dlookup k x with
        | some v => some v
        | none => dlookup k y := by
  induction x with
  | nil => rfl
  | cons kv rest ih =>
      rcases kv with ⟨k', v⟩
      by_cases h : k' = k <;> simp [dlookup, h, ih]

theorem dlookup_map_override (k : String) (a b : Dict) :
    dlookup k (a.map fun kv =>
        match dlookup kv.1 b with
        | some v => (kv.1, v)
        | none => kv)
      = match dlookup k a with
        | none => none
        | some v => some ((dlookup k b).getD v) := by
  induction a with
  | nil => rfl
  | cons kv rest ih =>
      rcases kv with ⟨k', v'⟩
      by_cases h : k' = k
      · subst h
        cases hb : dlookup k' b <;> simp [dlookup, hb]
      · cases hb : dlookup k' b <;> simp [dlookup, hb, h, ih]

theorem dlookup_filter_of_none (k : String) (a b : Dict) (ha : dlookup k a = none) :
    dlookup k (b.filter fun kv => (dlookup kv.1 a).isNone) = dlookup k b := by
  induction b with
  | nil => rfl
  | cons kv rest ih =>
      rcases kv with ⟨k', v⟩
      by_cases h : k' = k
      · subst h
        simp [List.filter_cons, dlookup, ha, ih]
      · cases hp : (dlookup k' a).isNone <;>
          simp [List.filter_cons, hp, dlookup, h, ih]

theorem dlookup_dictUnion (k : String) (a b : Dict) :
    dlookup k (dictUnion a b)
      = match dlookup k b with
        | some w => some w
        | none => dlookup k a := by
  unfold dictUnion
  rw [dlookup_append, dlookup_map_override]
  cases hA : dlookup k a with
  | some v => cases hB : dlookup k b <;> simp [hB]
  | none =>
      rw [dlookup_filter_of_none k a b hA]
      cases hB : dlookup k b <;> simp [hB]

theorem merge_data_fp (X : Option Dict) (k : String) (v : DiagValue) :
    ∃ dd, merge_data X (some [(k, v)]) = some dd ∧ dlookup k dd = some v := by
  cases X with
  | none => exact ⟨[(k, v)], rfl, by simp [dlookup]⟩
  | some a =>
      refine ⟨dictUnion a [(k, v)], rfl, ?_⟩
      rw [dlookup_dictUnion]
      simp [dlookup]

/-! ### `foldl max` lemmas for the farthest-failure position -/

theorem le_foldl_max (ℓ : List Nat) (i : Nat) : i ≤ ℓ.foldl max i := by
  induction ℓ generalizing i with
  | nil => exact le_refl i
  | cons a t ih =>
      simp only [List.foldl_cons]
      exact le_trans (le_max_left i a) (ih (max i a))

theorem mem_le_foldl_max (ℓ : List Nat) : ∀ (i x : Nat), x ∈ ℓ → x ≤ ℓ.foldl max i := by
  induction ℓ with
  | nil => intro i x hx; cases hx
  | cons a t ih =>
      intro i x hx
      simp only [List.foldl_cons]
      rcases List.mem_cons.mp hx with rfl | hx'
      · exact le_trans (le_max_right i x) (le_foldl_max t (max i x))
      · exact ih (max i a) x hx'

theorem foldl_max_eq_or_mem (ℓ : List Nat) (i : Nat) :
    ℓ.foldl max i = i ∨ ℓ.foldl max i ∈ ℓ := by
  induction ℓ generalizing i with
  | nil => exact Or.inl rfl
  | cons a t ih =>
      simp only [List.foldl_cons]
      rcases ih (max i a) with h | h
      · rcases Nat.le_total i a with hia | hai
        · right
          rw [h, Nat.max_eq_right hia]
          exact List.mem_cons_self a t
        · left
          rw [h, Nat.max_eq_left hai]
      · right
        exact List.mem_cons_of_mem a h

/-- All parsers of a list fail at a given cursor, with the given positions
    (pointwise). -/
inductive FailsAt {A : Type} (c : ParseState) : List (Parser A) → List Nat → Prop
  | nil : FailsAt c [] []
  | cons {p : Parser A} {ps : List (Parser A)} {a : Nat} {ℓ : List Nat}
      (m : String) (d : Option Dict)
      (hp : p c = .Failure m a d) (rest : FailsAt c ps ℓ) :
      FailsAt c (p :: ps) (a :: ℓ)

theorem altsLoop_first_success {A : Type} {c : ParseState} {ps1 : List (Parser A)}
    {ℓ1 : List Nat} (hfail : FailsAt c ps1 ℓ1) (p0 : Parser A) (ps2 : List (Parser A))
    {r : A} {s : ParseState} (hp0 : p0 c = .Success r s) :
    ∀ farthest data positions mesg,
      altsLoop c (ps1 ++ p0 :: ps2) farthest data positions mesg = .Success r s := by
  induction hfail with
  | nil =>
      intro farthest data positions mesg
      simp [altsLoop, hp0]
  | cons m d hp rest ih =>
      intro farthest data positions mesg
      simp only [List.cons_append, altsLoop, hp]
      split <;> apply ih

theorem altsLoop_all_fail {A : Type} {c : ParseState} {ps : List (Parser A)}
    {ℓ : List Nat} (hfail : FailsAt c ps ℓ) :
    ∀ farthest data positions mesg, ∃ m' d',
      altsLoop c ps farthest data positions mesg
        = .Failure m' (ℓ.foldl max farthest) d' := by
  induction hfail with
  | nil =>
      intro farthest data positions mesg
      exact ⟨_, _, rfl⟩
  | cons m d hp rest ih =>
      intro farthest data positions mesg
      simp only [altsLoop, hp, List.foldl_cons]
      rename_i a ℓ'
      by_cases hgt : a > farthest
      · rw [if_pos hgt]
        have hm : max farthest a = a := Nat.max_eq_right (le_of_lt hgt)
        rw [hm]
        exact ih a d _ m
      · rw [if_neg hgt]
        have hm : max farthest a = farthest := Nat.max_eq_left (by omega)
        rw [hm]
        exact ih farthest data _ mesg

/-- C2: when `p` and `q` both fail from the same cursor at positions `a` and
    `b`, `alt(p, q)` fails at `max(a, b)` with the branches' data merged and
    both positions recorded under the `failure-positions` key; `alts` tries
    its parsers left to right from the same cursor, returning the first
    `Success` immediately, and when all fail (at positions not before the
    cursor, as every engine parser reports) it fails at the farthest
    failure position. -/
theorem alt_alts_farthest_failure {A : Type} :
    (∀ (p q : Parser A) (c : ParseState) (m1 m2 : String) (a b : Nat)
       (d1 d2 : Option Dict),
       p c = .Failure m1 a d1 → q c = .Failure m2 b d2 →
       ∃ msg dd, alt p q c = .Failure msg (max a b) (some dd)
         ∧ merge_data (merge_data d1 d2)
             (some [(fpKey, DiagValue.positions [a, b])]) = some dd
         ∧ dlookup fpKey dd = some (DiagValue.positions [a, b]))
    ∧ (∀ (ps1 : List (Parser A)) (p0 : Parser A) (ps2 : List (Parser A))
         (c : ParseState) (ℓ1 : List Nat) (r : A) (s : ParseState),
        FailsAt c ps1 ℓ1 → p0 c = .Success r s →
        alts (ps1 ++ p0 :: ps2) c = .Success r s)
    ∧ (∀ (ps : List (Parser A)) (c : ParseState) (ℓ : List Nat),
        FailsAt c ps ℓ → ℓ ≠ [] → (∀ x ∈ ℓ, c.point ≤ x) →
        ∃ m' F d', alts ps c = .Failure m' F d' ∧ F ∈ ℓ ∧ ∀ x ∈ ℓ, x ≤ F) := by
  refine ⟨?_, ?_, ?_⟩
  · intro p q c m1 m2 a b d1 d2 hp hq
    obtain ⟨dd, hmg, hlk⟩ :=
      merge_data_fp (merge_data d1 d2) fpKey (DiagValue.positions [a, b])
    refine ⟨"alt failed: " ++ m1 ++ " and " ++ m2, dd, ?_, hmg, hlk⟩
    simp only [alt, hp, hq, hmg]
  · intro ps1 p0 ps2 c ℓ1 r s hfail hp0
    exact altsLoop_first_success hfail p0 ps2 hp0 c.point none [] ""
  · intro ps c ℓ hfail hne hge
    obtain ⟨m', d', hloop⟩ := altsLoop_all_fail hfail c.point none [] ""
    refine ⟨m', ℓ.foldl max c.point, d', hloop, ?_, fun x hx => mem_le_foldl_max ℓ c.point x hx⟩
    rcases foldl_max_eq_or_mem ℓ c.point with h | h
    · obtain ⟨x0, hx0⟩ := List.exists_mem_of_ne_nil ℓ hne
      have h1 : x0 ≤ ℓ.foldl max c.point := mem_le_foldl_max ℓ c.point x0 hx0
      have h2 : c.point ≤ x0 := hge x0 hx0
      have : ℓ.foldl max c.point = x0 := by omega
      rw [this]
      exact hx0
    · exact h

/-- Witness for `alt_alts_farthest_failure` with concrete `char` parsers on
    `"ab"`: both `alt` branches fail at 0; `alts` returns the first success;
    `alts` over branches failing at 0 and 1 fails at the farthest point. -/
theorem alt_alts_farthest_failure_witness :
    (∃ msg dd, alt (char 'x') (char 'y') ⟨['a', 'b'], 0, 0⟩
        = .Failure msg (max 0 0) (some dd)
      ∧ merge_data (merge_data (some [("expected", DiagValue.str ['x'])])
            (some [("expected", DiagValue.str ['y'])]))
          (some [(fpKey, DiagValue.positions [0, 0])]) = some dd
      ∧ dlookup fpKey dd = some (DiagValue.positions [0, 0]))
    ∧ alts ([char 'x'] ++ char 'a' :: []) ⟨['a', 'b'], 0, 0⟩
        = .Success 'a' ⟨['a', 'b'], 1, 0⟩
    ∧ (∃ m' F d',
        alts [char 'x', fmap (seq (char 'a') (char 'x')) Prod.fst] ⟨['a', 'b'], 0, 0⟩
          = .Failure m' F d'
        ∧ F ∈ [0, 1] ∧ ∀ x ∈ [0, 1], x ≤ F) :=
  ⟨(alt_alts_farthest_failure (A := Char)).1 (char 'x') (char 'y') ⟨['a', 'b'], 0, 0⟩
     "Expected character" "Expected character" 0 0
     (some [("expected", DiagValue.str ['x'])]) (some [("expected", DiagValue.str ['y'])])
     (by decide) (by decide),
   (alt_alts_farthest_failure (A := Char)).2.1 [char 'x'] (char 'a') []
     ⟨['a', 'b'], 0, 0⟩ [0] 'a' ⟨['a', 'b'], 1, 0⟩
     (FailsAt.cons "Expected character" (some [("expected", DiagValue.str ['x'])])
       (by decide) FailsAt.nil)
     (by decide),
   (alt_alts_farthest_failure (A := Char)).2.2
     [char 'x', fmap (seq (char 'a') (char 'x')) Prod.fst] ⟨['a', 'b'], 0, 0⟩ [0, 1]
     (FailsAt.cons "Expected character" (some [("expected", DiagValue.str ['x'])])
       (by decide)
       (FailsAt.cons "Expected character" (some [("expected", DiagValue.str ['x'])])
         (by decide) FailsAt.nil))
     (by decide) (by decide)⟩

/-- `p` succeeds exactly `k` consecutive times from a state: it succeeds `k`
    times in a row (collecting the results and ending states) and then fails
    at the state after the `k`-th success. -/
inductive SucceedsTimes {A : Type} (p : Parser A) : ParseState → Nat → List A → ParseState → Prop
  | zero (s : ParseState) (m : String) (pos : Nat) (d : Option Dict)
      (hfail : p s = .Failure m pos d) : SucceedsTimes p s 0 [] s
  | succ (s s' sf : ParseState) (k : Nat) (r : A) (rs : List A)
      (hp : p s = .Success r s') (rest : SucceedsTimes p s' k rs sf) :
      SucceedsTimes p s (k + 1) (r :: rs) sf

theorem succeedsTimes_length {A : Type} {p : Parser A} {s : ParseState} {k : Nat}
    {rs : List A} {sf : ParseState} (h : SucceedsTimes p s k rs sf) : rs.length = k := by
  induction h with
  | zero => rfl
  | succ s s' sf' k' r rs' hp rest ih => simp [ih]

/-- When `p` succeeds exactly `k` times and the loop bound allows more than
    `k` iterations, the `repeated` loop stops at `p`'s failure: it fails at
    the original point when fewer than `minimum` repetitions were collected
    and otherwise succeeds with all `k` results. -/
theorem repeatedFrom_of_fail {A : Type} {p : Parser A} {st : ParseState} {k : Nat}
    {rs : List A} {sf : ParseState} (minimum startPoint : Nat)
    (h : SucceedsTimes p st k rs sf) :
    ∀ remaining reps, k < remaining →
      repeatedFrom p minimum startPoint remaining reps st
        = if reps + k < minimum
          then .Failure "repeated parsed fewer than minimum items" startPoint none
          else .Success rs sf := by
  induction h with
  | zero s m pos d hfail =>
      intro remaining reps hlt
      obtain ⟨rem, rfl⟩ : ∃ rem, remaining = rem + 1 := ⟨remaining - 1, by omega⟩
      simp only [repeatedFrom, hfail, Nat.add_zero]
  | succ s s' sf' k' r rs' hp rest ih =>
      intro remaining reps hlt
      obtain ⟨rem, rfl⟩ : ∃ rem, remaining = rem + 1 := ⟨remaining - 1, by omega⟩
      simp only [repeatedFrom, hp]
      rw [ih rem (reps + 1) (by omega)]
      by_cases hcond : reps + 1 + k' < minimum
      · rw [if_pos hcond, if_pos (by omega)]
      · rw [if_neg hcond, if_neg (by omega)]

/-- When the loop bound is at most the number of times `p` can succeed, the
    `repeated` loop performs exactly `remaining` iterations and succeeds
    with the first `remaining` results. -/
theorem repeatedFrom_of_max {A : Type} {p : Parser A} (minimum startPoint : Nat) :
    ∀ (remaining : Nat) {st : ParseState} {k : Nat} {rs : List A} {sf : ParseState},
      SucceedsTimes p st k rs sf → ∀ reps, remaining ≤ k →
      ∃ s', repeatedFrom p minimum startPoint remaining reps st
        = .Success (rs.take remaining) s' := by
  intro remaining
  induction remaining with
  | zero => intro st k rs sf h reps _; exact ⟨st, rfl⟩
  | succ rem ih =>
      intro st k rs sf h reps hle
      cases h with
      | zero _ _ _ _ _ => omega
      | succ _ s' _ k' r rs' hp rest =>
          simp only [repeatedFrom, hp]
          obtain ⟨s'', hrec⟩ := ih rest (reps + 1) (by omega)
          rw [hrec]
          exact ⟨s'', by simp⟩

/-- C3: for `0 ≤ m ≤ n` and a cursor at which `p` can succeed exactly `k`
    consecutive times, `repeated(p, m, n)` succeeds with exactly `min(k, n)`
    results when `k ≥ m` (stopping, without failing, once `n` repetitions
    are reached) and fails — at the original point — when `k < m`. -/
theorem repeated_bounds {A : Type} (p : Parser A) (c : ParseState) (k m n : Nat)
    (rs : List A) (sf : ParseState) (h : SucceedsTimes p c k rs sf) (hmn : m ≤ n) :
    (m ≤ k → ∃ s', repeated p m n c = .Success (rs.take n) s'
        ∧ (rs.take n).length = min k n)
    ∧ (k < m →
        repeated p m n c = .Failure "repeated parsed fewer than minimum items" c.point none) := by
  have hlen : rs.length = k := succeedsTimes_length h
  constructor
  · intro hmk
    by_cases hkn : k < n
    · have hrun := repeatedFrom_of_fail m c.point h n 0 hkn
      rw [if_neg (by omega)] at hrun
      refine ⟨sf, ?_, ?_⟩
      · show repeatedFrom p m c.point n 0 c = _
        rw [hrun, List.take_of_length_le (by omega)]
      · rw [List.length_take]
        omega
    · obtain ⟨s', hs⟩ := repeatedFrom_of_max m c.point n h 0 (by omega)
      refine ⟨s', hs, ?_⟩
      rw [List.length_take]
      omega
  · intro hkm
    have hrun := repeatedFrom_of_fail m c.point h n 0 (by omega)
    rw [if_pos (by omega)] at hrun
    exact hrun

/-- Witness for `repeated_bounds`: `char 'a'` succeeds exactly twice on
    `"aa"`; `repeated(char 'a', 1, 5)` yields both results, and
    `repeated(char 'a', 3, 5)` fails. -/
theorem repeated_bounds_witness :
    (∃ s', repeated (char 'a') 1 5 ⟨['a', 'a'], 0, 0⟩
        = .Success (['a', 'a'].take 5) s' ∧ (['a', 'a'].take 5).length = min 2 5)
    ∧ repeated (char 'a') 3 5 ⟨['a', 'a'], 0, 0⟩
        = .Failure "repeated parsed fewer than minimum items" 0 none :=
  ⟨(repeated_bounds (char 'a') ⟨['a', 'a'], 0, 0⟩ 2 1 5 ['a', 'a'] ⟨['a', 'a'], 2, 0⟩
      (SucceedsTimes.succ ⟨['a', 'a'], 0, 0⟩ ⟨['a', 'a'], 1, 0⟩ ⟨['a', 'a'], 2, 0⟩ 1 'a' ['a']
        (by decide)
        (SucceedsTimes.succ ⟨['a', 'a'], 1, 0⟩ ⟨['a', 'a'], 2, 0⟩ ⟨['a', 'a'], 2, 0⟩ 0 'a' []
          (by decide)
          (SucceedsTimes.zero ⟨['a', 'a'], 2, 0⟩ "Expected character" 2
            (some [("expected", DiagValue.str ['a'])]) (by decide))))
      (by omega)).1 (by omega),
   (repeated_bounds (char 'a') ⟨['a', 'a'], 0, 0⟩ 2 3 5 ['a', 'a'] ⟨['a', 'a'], 2, 0⟩
      (SucceedsTimes.succ ⟨['a', 'a'], 0, 0⟩ ⟨['a', 'a'], 1, 0⟩ ⟨['a', 'a'], 2, 0⟩ 1 'a' ['a']
        (by decide)
        (SucceedsTimes.succ ⟨['a', 'a'], 1, 0⟩ ⟨['a', 'a'], 2, 0⟩ ⟨['a', 'a'], 2, 0⟩ 0 'a' []
          (by decide)
          (SucceedsTimes.zero ⟨['a', 'a'], 2, 0⟩ "Expected character" 2
            (some [("expected", DiagValue.str ['a'])]) (by decide))))
      (by omega)).2 (by omega)⟩

/-- C6: parsing `"[10, 20, 30]"` with
    `interleave(natural_number, ", ", start='[', end=']')` yields
    `[10, 20, 30]`; parsing `"[]"` with `allow_empty=True` yields `[]`;
    parsing `"[]"` with `allow_empty=False` fails. -/
theorem interleave_round_trip :
    parse (String.toList "[10, 20, 30]")
      (interleave natural_number (string (String.toList ", ") id)
        (some (char ']')) (some (char '[')) false 20) 0
      = .Success [10, 20, 30] ⟨String.toList "[10, 20, 30]", 12, 0⟩
    ∧ parse (String.toList "[]")
        (interleave natural_number (string (String.toList ", ") id)
          (some (char ']')) (some (char '[')) true 20) 0
        = .Success [] ⟨String.toList "[]", 2, 0⟩
    ∧ failed (parse (String.toList "[]")
        (interleave natural_number (string (String.toList ", ") id)
          (some (char ']')) (some (char '[')) false 20) 0) = true := by
  refine ⟨by decide, by decide, by decide⟩

/-- The loop of `interleave` performs, from a state, a chain of item
    successes interleaved with separator successes, ending right after the
    last item success. -/
inductive Chain {A B : Type} (item : Parser A) (sep : Parser B) :
    ParseState → List A → ParseState → Prop
  | one (s s' : ParseState) (r : A)
      (hp : item s = .Success r s') : Chain item sep s [r] s'
  | more (s s' s'' sf : ParseState) (r : A) (b : B) (rs : List A)
      (hp : item s = .Success r s') (hs : sep s' = .Success b s'')
      (rest : Chain item sep s'' rs sf) : Chain item sep s (r :: rs) sf

/-- After a chain of items, a successful trailing separator followed by a
    failing item makes the loop break with `item_state` at the state after
    the last item: the separator's consumption is discarded. -/
theorem interleaveLoop_chain {A B C : Type} {item : Parser A} {sep : Parser B}
    (endp : Option (Parser C)) (ae : Bool) {s0 sk t : ParseState} {rs : List A}
    {b : B} {m : String} {pos : Nat} {d : Option Dict}
    (hchain : Chain item sep s0 rs sk)
    (hsep : sep sk = .Success b t)
    (hitem : item t = .Failure m pos d) :
    ∀ fuel acc ist, rs.length + 1 ≤ fuel →
      interleaveLoop item sep endp ae fuel s0 acc ist
        = interleaveFinish endp (acc ++ rs) t (some sk) := by
  induction hchain with
  | one s s' r hp =>
      intro fuel acc ist hfuel
      obtain ⟨f, rfl⟩ : ∃ f, fuel = f + 1 := ⟨fuel - 1, by omega⟩
      simp only [interleaveLoop, hp, hsep]
      obtain ⟨f', rfl⟩ : ∃ f', f = f' + 1 := ⟨f - 1, by simp at hfuel; omega⟩
      simp only [interleaveLoop, hitem, Option.isNone_some, Bool.false_and]
      rfl
  | more s s' s'' sf r b' rs' hp hs rest ih =>
      intro fuel acc ist hfuel
      obtain ⟨f, rfl⟩ : ∃ f, fuel = f + 1 := ⟨fuel - 1, by omega⟩
      simp only [interleaveLoop, hp, hs]
      rw [ih hsep f (acc ++ [r]) (some s')
        (by simp only [List.length_cons] at hfuel; omega)]
      simp

/-- C10: in an `interleave` run in which at least one item was parsed, when
    a separator matches after the last item but the following item fails,
    the separator's consumption is discarded: with `end` absent the
    resulting `Success` cursor sits immediately after the last item (at
    `sk`, not at `t` after the trailing separator), and with `end` present
    the `end` parser is applied starting immediately after the last item. -/
theorem interleave_trailing_sep_discarded {A B C D : Type}
    (item : Parser A) (sep : Parser B) (endp : Option (Parser C))
    (startp : Option (Parser D)) (ae : Bool) (fuel : Nat) (c s0 sk t : ParseState)
    (rs : List A) (b : B) (m : String) (pos : Nat) (d : Option Dict)
    (hstart : startp = none ∧ s0 = c
      ∨ ∃ st r0, startp = some st ∧ st c = ParseResult.Success r0 s0)
    (hchain : Chain item sep s0 rs sk)
    (hsep : sep sk = .Success b t)
    (hitem : item t = .Failure m pos d)
    (hfuel : rs.length + 1 ≤ fuel) :
    interleave item sep endp startp ae fuel c
      = match endp with
        | none => ParseResult.Success rs sk
        | some e =>
            match e sk with
            | .Success _ next => .Success rs next
            | .Failure m2 p2 d2 => .Failure m2 p2 d2 := by
  have hloop := interleaveLoop_chain endp ae hchain hsep hitem fuel [] none hfuel
  have hbody : interleave item sep endp startp ae fuel c
      = interleaveLoop item sep endp ae fuel s0 [] none := by
    rcases hstart with ⟨h1, h2⟩ | ⟨st, r0, h1, h2⟩
    · subst h1; subst h2; rfl
    · subst h1; simp only [interleave, h2]
  rw [hbody, hloop]
  simp only [List.nil_append]
  cases endp <;> rfl

/-- Witness for `interleave_trailing_sep_discarded`: `char 'a'` items with
    `char ','` separators on `"a,b"`, no delimiters: one item parses, the
    trailing `,` matches but `b` is not an item, and the success cursor
    lands at 1, right after the item. -/
theorem interleave_trailing_sep_discarded_witness :
    interleave (char 'a') (char ',') (none : Option (Parser Char))
      (none : Option (Parser Char)) false 2 ⟨['a', ',', 'b'], 0, 0⟩
      = .Success ['a'] ⟨['a', ',', 'b'], 1, 0⟩ :=
  interleave_trailing_sep_discarded (char 'a') (char ',') none none false 2
    ⟨['a', ',', 'b'], 0, 0⟩ ⟨['a', ',', 'b'], 0, 0⟩ ⟨['a', ',', 'b'], 1, 0⟩
    ⟨['a', ',', 'b'], 2, 0⟩ ['a'] ',' "Expected character" 2
    (some [("expected", DiagValue.str ['a'])])
    (Or.inl ⟨rfl, rfl⟩)
    (Chain.one ⟨['a', ',', 'b'], 0, 0⟩ ⟨['a', ',', 'b'], 1, 0⟩ 'a' (by decide))
    (by decide) (by decide) (by decide)
